import Mathlib

set_option maxRecDepth 100000

/-!
Verification of the Kanavi VL-Series LiDAR ingestion-and-relay pipeline
(dev_tools/mock_server_lidar.py): the binary packet decoder, the rate
limiter, the ingestion queue, the broadcast fan-out and the scan-control
state machine.  Machine bytes are modelled as natural numbers below 256;
Python float arithmetic on distances, azimuths and timestamps is modelled
exactly over the rationals.
-/

/-! ## Packet decoder (KanaviLidarParser.parse_kanavi_packet) -/

/-- One entry of the static model table `self.lidar_models`. -/
structure ModelInfo where
  name : String
  channels : Nat
  hfov : ℚ
  interface : String
deriving DecidableEq, Repr

/-- Hexadecimal digit character, used for the fallback model name. -/
def hexDigit (n : Nat) : Char :=
  (['0', '1', '2', '3', '4', '5', '6', '7', '8', '9',
    'A', 'B', 'C', 'D', 'E', 'F']).getD n '0'

/-- Fallback model name `Unknown_<hex>` built from the product line byte,
mirroring the format string `"Unknown_{product_line:02X}"`. -/
def unknownName (pl : Nat) : String :=
  "Unknown_" ++ String.mk [hexDigit (pl / 16), hexDigit (pl % 16)]

/-- Model table lookup `self.lidar_models.get(product_line, default)`:
three fixed entries, every other product line falls back to a generic
4-channel 360-degree model. -/
def lidar_models (product_line : Nat) : ModelInfo :=
  if product_line = 0x03 then ⟨"VL-R2", 2, 120, "Ethernet"⟩
  else if product_line = 0x06 then ⟨"VL-R4", 4, 100, "Ethernet"⟩
  else if product_line = 0x07 then ⟨"VL-R270", 1, 270, "Ethernet"⟩
  else ⟨unknownName product_line, 4, 360, "Unknown"⟩

/-- One decoded point, mirroring the dict appended to `points`. -/
structure PointSample where
  channel : Nat
  distance : ℚ
  azimuth : ℚ
  detection : Nat
  point_index : Nat
deriving DecidableEq, Repr, Inhabited

/-- The dict returned by `parse_kanavi_packet` on success. -/
structure ParsedPacket where
  points : List PointSample
  product_line : Nat
  lidar_id : Nat
  channel : Nat
  model_info : ModelInfo
  num_points : Nat
  raw_command : Nat
  packet_size : Nat
  data_length : Nat
deriving DecidableEq, Repr

/-- Big-endian 16-bit command word `struct.unpack(">H", data[3:5])`. -/
def cmdOf (data : List Nat) : Nat := data.getD 3 0 * 256 + data.getD 4 0

/-- Big-endian 16-bit data length `struct.unpack(">H", data[5:7])`. -/
def dlenOf (data : List Nat) : Nat := data.getD 5 0 * 256 + data.getD 6 0

/-- Checksum recomputation: XOR of bytes 0 through 6. -/
def calcChecksum (data : List Nat) : Nat :=
  (List.range 7).foldl (fun a i => a ^^^ data.getD i 0) 0

/-- Payload slice `data[7:7+data_length]`. -/
def payloadOf (data : List Nat) : List Nat := (data.take (7 + dlenOf data)).drop 7

/-- Expected point count: 400 for product line 0x06 (VL-R4), 360 otherwise. -/
def expectedPointsOf (product_line : Nat) : Nat :=
  if product_line = 0x06 then 400 else 360

/-- Distance of point i: integer byte plus fractional byte over 100. -/
def pointDistance (pd : List Nat) (i : Nat) : ℚ :=
  (pd.getD (i * 2) 0 : ℚ) + (pd.getD (i * 2 + 1) 0 : ℚ) / 100

/-- Azimuth of point i: the horizontal field of view spread evenly over the
expected points, symmetric about zero. -/
def pointAzimuth (ep : Nat) (hfov : ℚ) (i : Nat) : ℚ :=
  if 1 < ep then -hfov / 2 + (i : ℚ) * hfov / ((ep - 1 : Nat) : ℚ) else 0

/-- Detection byte of point i: taken from the trailing block beyond the
distance data when one exists and the index falls inside it, otherwise 0. -/
def detectionAt (pd : List Nat) (ep i : Nat) : Nat :=
  if ep * 2 < pd.length then
    if i < pd.length - ep * 2 then
      pd.getD (ep * 2 + i % (pd.length - ep * 2)) 0
    else 0
  else 0

/-- The point record appended to `points` for index i. -/
def mkPoint (pd : List Nat) (ep : Nat) (hfov : ℚ) (ch i : Nat) : PointSample :=
  ⟨ch, pointDistance pd i, pointAzimuth ep hfov i, detectionAt pd ep i, i⟩

/-- The point-extraction loop `for i in range(expected_points)`, with the
early break when fewer than two payload bytes remain, keeping only points
with positive distance.  The first argument is the remaining fuel
(`expected_points - i`), the second the current index. -/
def parsePointsAux (pd : List Nat) (ep : Nat) (hfov : ℚ) (ch : Nat) :
    Nat → Nat → List PointSample
  | 0, _ => []
  | fuel + 1, i =>
    if pd.length ≤ i * 2 + 1 then []
    else
      (if 0 < pointDistance pd i then [mkPoint pd ep hfov ch i] else []) ++
        parsePointsAux pd ep hfov ch fuel (i + 1)

/-- Point extraction runs only when the payload holds at least
`expected_points * 2` bytes; otherwise the point list stays empty. -/
def parsePoints (pd : List Nat) (ep : Nat) (hfov : ℚ) (ch : Nat) : List PointSample :=
  if ep * 2 ≤ pd.length then parsePointsAux pd ep hfov ch ep 0 else []

/-- The success dict assembled at the end of `parse_kanavi_packet`. -/
def mkFrame (data : List Nat) : ParsedPacket :=
  let product_line := data.getD 1 0
  let command := cmdOf data
  let actual_channel := (command &&& 0xFF) &&& 0x0F
  let packet_data := payloadOf data
  let model_info := lidar_models product_line
  let points := parsePoints packet_data (expectedPointsOf product_line)
    model_info.hfov actual_channel
  { points := points
    product_line := product_line
    lidar_id := data.getD 2 0
    channel := actual_channel
    model_info := model_info
    num_points := points.length
    raw_command := command
    packet_size := data.length
    data_length := packet_data.length }

/-- The decoder `parse_kanavi_packet`: every failure path of the source
returns `None`, modelled as `none`; the surrounding try/except is modelled
by totality. -/
def parse_kanavi_packet (data : List Nat) : Option ParsedPacket :=
  if data.length < 8 then none
  else if data.getD 0 0 ≠ 0xFA then none
  else if cmdOf data &&& 0xFF00 ≠ 0xDD00 then none
  else if (cmdOf data &&& 0xFF) &&& 0xF0 ≠ 0xC0 then none
  else if data.length < 7 + dlenOf data + 1 then none
  else if calcChecksum data ≠ data.getD (7 + dlenOf data) 0 then none
  else some (mkFrame data)

/-- Conjunction of the validation checks that gate success. -/
def acceptCond (data : List Nat) : Prop :=
  8 ≤ data.length ∧ data.getD 0 0 = 0xFA ∧
  cmdOf data &&& 0xFF00 = 0xDD00 ∧
  (cmdOf data &&& 0xFF) &&& 0xF0 = 0xC0 ∧
  7 + dlenOf data + 1 ≤ data.length ∧
  calcChecksum data = data.getD (7 + dlenOf data) 0

instance (data : List Nat) : Decidable (acceptCond data) := by
  unfold acceptCond; infer_instance

/-- Valid packet shape in the sense of claim C1: correct start marker,
distance-data command with a channel tag, and sufficient length. -/
def validShape (data : List Nat) : Prop :=
  8 ≤ data.length ∧ data.getD 0 0 = 0xFA ∧ data.getD 3 0 = 0xDD ∧
  data.getD 4 0 &&& 0xF0 = 0xC0 ∧ 7 + dlenOf data + 1 ≤ data.length

instance (data : List Nat) : Decidable (validShape data) := by
  unfold validShape; infer_instance

/-- Flip of one bit: byte j is replaced by its XOR with two to the k. -/
def flipBit (data : List Nat) (j k : Nat) : List Nat :=
  data.set j (data.getD j 0 ^^^ 2 ^ k)

/-- Detection rule exactly as the specification words it ("read per point
from that block, wrapping by modulo length if the block is shorter than
expected_points"), to be compared with the behaviour of the source. -/
def claimDetection (pd : List Nat) (ep i : Nat) : Nat :=
  if ep * 2 < pd.length then pd.getD (ep * 2 + i % (pd.length - ep * 2)) 0
  else 0

/-- Concrete test packet builder: header, payload, correct trailing
checksum. -/
def mkTestPacket (pl id ch : Nat) (pd : List Nat) : List Nat :=
  let hdr := [0xFA, pl, id, 0xDD, 0xC0 + ch, pd.length / 256, pd.length % 256]
  hdr ++ pd ++ [hdr.foldl (fun a b => a ^^^ b) 0]

/-- Accepted packet used to exercise the checksum gate. -/
def exC1 : List Nat := mkTestPacket 1 2 3 [0x10, 0x20]

/-- Accepted packet whose data-length byte can be flipped from 2 to 0 while
landing the new checksum position on a payload byte holding the matching
value. -/
def exC1b : List Nat := [0xFA, 0, 0, 0xDD, 0xC0, 0, 2, 231, 0, 229]

/-- Payload with a two-byte trailing detection block after 720 distance
bytes; only point 2 has a nonzero distance. -/
def exC4pd : List Nat := [0, 0, 1, 0] ++ List.replicate 716 0 ++ [9]

/-- Packet whose only emitted point has index 1, beyond the one-byte
trailing detection block. -/
def exC4 : List Nat := mkTestPacket 0 0 0 exC4pd

/-- Packet whose only emitted point has index 0, inside the one-byte
trailing detection block. -/
def exC4w : List Nat := mkTestPacket 0 0 0 ([1, 0] ++ List.replicate 718 0 ++ [9])

/-- Packet with a full 720-byte distance payload; only point 0 is nonzero. -/
def exC8w : List Nat := mkTestPacket 0 0 0 ([1, 50] ++ List.replicate 718 0)

/-- The point that `exC8w` decodes to. -/
def pt0C8 : PointSample := ⟨0, 3 / 2, -180, 0, 0⟩

/-- The point that `exC4w` decodes to. -/
def ptC4w : PointSample := ⟨0, 1, -180, 9, 0⟩

/-- Small accepted packet with a two-byte payload, far below the expected
point count. -/
def exC6 : List Nat := mkTestPacket 0 0 0 [1, 2]

/-! ## Ingestion queue (queue.Queue) -/

/-- Bounded FIFO modelling pythons queue.Queue: maxsize 0 means no bound. -/
structure DataQueue (α : Type) where
  maxsize : Nat
  items : List α
deriving DecidableEq, Repr

/-- Full test `0 < maxsize <= qsize()`. -/
def DataQueue.isFull {α : Type} (q : DataQueue α) : Bool :=
  decide (0 < q.maxsize ∧ q.maxsize ≤ q.items.length)

/-- Non-blocking put: on a full queue the caller catches the exception and
drops the item, so the pair returns the unchanged queue and `false`. -/
def DataQueue.put_nowait {α : Type} (q : DataQueue α) (x : α) : DataQueue α × Bool :=
  if q.isFull then (q, false) else ({ q with items := q.items ++ [x] }, true)

/-- The queue created in `KanaviWebSocketServer.__init__`: `queue.Queue()`
with no maxsize argument. -/
def serverInitQueue : DataQueue Nat := ⟨0, []⟩

/-- Repeated pushes through the drop-on-full path. -/
def pushMany (q : DataQueue Nat) (xs : List Nat) : DataQueue Nat :=
  xs.foldl (fun q x => (q.put_nowait x).1) q

/-- Drain step `get_nowait`: pop the front item when one exists. -/
def DataQueue.get_nowait {α : Type} (q : DataQueue α) : Option (α × DataQueue α) :=
  match q.items with
  | [] => none
  | x :: rest => some (x, { q with items := rest })

/-- The drain loop `while not empty: get_nowait()`, with fuel. -/
def drainAux {α : Type} : Nat → DataQueue α → List α × DataQueue α
  | 0, q => ([], q)
  | fuel + 1, q =>
    match q.get_nowait with
    | none => ([], q)
    | some (x, q2) =>
      let r := drainAux fuel q2
      (x :: r.1, r.2)

/-- Draining everything currently queued. -/
def drainAll {α : Type} (q : DataQueue α) : List α × DataQueue α :=
  drainAux q.items.length q

/-! ## Rate limiter (per-channel 20 Hz gate in on_lidar_data_received) -/

/-- Rate gate: timestamps per channel with `defaultdict(float)` default 0;
forward and record only when at least one twentieth of a second (50 ms)
passed since the last forwarded frame on that channel. -/
def rate_limit_allow (last : Nat → ℚ) (ch : Nat) (now : ℚ) : Bool × (Nat → ℚ) :=
  if now - last ch < 1 / 20 then (false, last)
  else (true, fun c => if c = ch then now else last c)

/-! ## Broadcast fan-out (KanaviWebSocketServer.broadcast_to_clients) -/

/-- Fan-out loop over a snapshot of the registry: each session whose send
succeeds receives the serialized message; failing sessions are collected
into the disconnected list and the loop continues. -/
def broadcast_to_clients (clients : List Nat) (ok : Nat → Bool) (m : Nat) :
    List (Nat × Nat) × List Nat :=
  clients.foldl
    (fun acc c => if ok c then (acc.1 ++ [(c, m)], acc.2) else (acc.1, acc.2 ++ [c]))
    ([], [])

/-- Removal loop: discard every collected disconnected session. -/
def discardAll (reg disc : List Nat) : List Nat :=
  disc.foldl (fun r c => r.filter (fun x => x ≠ c)) reg

/-- Registry contents after one broadcast. -/
def registry_after_broadcast (clients : List Nat) (ok : Nat → Bool) (m : Nat) : List Nat :=
  discardAll clients (broadcast_to_clients clients ok m).2

/-! ## Scan control (handle_client_message) and whole-server state -/

/-- State of `KanaviWebSocketServer` relevant to scan control:
`receiving` is the scanning flag, `receiverRunning` the receiver `running`
flag, `activeReceivers` counts live receive loops. -/
structure ServerState where
  receiving : Bool
  receiverRunning : Bool
  activeReceivers : Nat
  last_send_time : Nat → ℚ
  data_queue : DataQueue Nat
  connected_clients : List Nat

/-- Fresh server: IDLE, no receiver, default timestamps, empty unbounded
queue, no clients. -/
def initServer : ServerState :=
  ⟨false, false, 0, fun _ => 0, ⟨0, []⟩, []⟩

/-- start_scan: when not receiving, set the flag and start one new receiver
loop; otherwise do nothing. -/
def startScanMsg (s : ServerState) : ServerState :=
  if s.receiving then s
  else { s with receiving := true, receiverRunning := true,
                activeReceivers := s.activeReceivers + 1 }

/-- stop_scan: when receiving, clear the flag and the receiver running
flag; every receive loop observes the cleared flag and exits. -/
def stopScanMsg (s : ServerState) : ServerState :=
  if s.receiving then
    { s with receiving := false, receiverRunning := false, activeReceivers := 0 }
  else s

/-- Control inputs that can reach the server. -/
inductive ControlMsg : Type
  | start_scan : ControlMsg
  | stop_scan : ControlMsg
  | get_status : ControlMsg
  | ping : ControlMsg
  | client_connect : Nat → ControlMsg
  | client_disconnect : Nat → ControlMsg

/-- One control-message step; get_status and ping cause no transition,
connect and disconnect touch only the registry. -/
def applyMsg (s : ServerState) : ControlMsg → ServerState
  | ControlMsg.start_scan => startScanMsg s
  | ControlMsg.stop_scan => stopScanMsg s
  | ControlMsg.get_status => s
  | ControlMsg.ping => s
  | ControlMsg.client_connect c =>
    if c ∈ s.connected_clients then s
    else { s with connected_clients := s.connected_clients ++ [c] }
  | ControlMsg.client_disconnect c =>
    { s with connected_clients := s.connected_clients.filter (fun x => x ≠ c) }

/-- Reachable states: any sequence of control messages from the fresh
server. -/
def applyMsgs (s : ServerState) (msgs : List ControlMsg) : ServerState :=
  msgs.foldl applyMsg s

/-- Concrete running server used by witnesses. -/
def sC10 : ServerState :=
  ⟨true, true, 1, fun _ => 0, ⟨0, [7, 8]⟩, [1, 2]⟩

/-- Named payload of the packet `exC4w`. -/
def exC4wpd : List Nat := [1, 0] ++ List.replicate 718 0 ++ [9]

/-- Named payload of the packet `exC8w`. -/
def exC8wpd : List Nat := [1, 50] ++ List.replicate 718 0

/-! ## Basic list and xor lemmas -/

theorem getD_set_self (l : List Nat) (j v : Nat) (h : j < l.length) :
    (l.set j v).getD j 0 = v := by
  induction l generalizing j with
  | nil => simp at h
  | cons a t ih =>
    cases j with
    | zero => rfl
    | succ j => simpa using ih j (by simpa using h)

theorem getD_set_ne (l : List Nat) (i j v : Nat) (h : i ≠ j) :
    (l.set j v).getD i 0 = l.getD i 0 := by
  induction l generalizing i j with
  | nil => simp
  | cons a t ih =>
    cases j with
    | zero =>
      cases i with
      | zero => exact absurd rfl h
      | succ i => simp
    | succ j =>
      cases i with
      | zero => simp
      | succ i => simpa using ih i j (fun hh => h (by rw [hh]))

theorem getD_mem (l : List Nat) (i : Nat) (hi : i < l.length) : l.getD i 0 ∈ l := by
  induction l generalizing i with
  | nil => simp at hi
  | cons a t ih =>
    cases i with
    | zero => simp
    | succ i =>
      simp only [List.getD_cons_succ]
      exact List.mem_cons_of_mem _ (ih i (by simpa using hi))

theorem xor_left_comm_nat (a b c : Nat) : a ^^^ (b ^^^ c) = b ^^^ (a ^^^ c) := by
  rw [← Nat.xor_assoc, Nat.xor_comm a b, Nat.xor_assoc]

theorem xor_pow_ne (a k : Nat) : a ^^^ 2 ^ k ≠ a := by
  intro h
  have h2 : a ^^^ 2 ^ k = a ^^^ 0 := by simpa using h
  exact (Nat.two_pow_pos k).ne' (Nat.xor_right_inj.mp h2)

theorem calcChecksum_expand (data : List Nat) :
    calcChecksum data =
      ((((((0 ^^^ data.getD 0 0) ^^^ data.getD 1 0) ^^^ data.getD 2 0) ^^^ data.getD 3 0)
        ^^^ data.getD 4 0) ^^^ data.getD 5 0) ^^^ data.getD 6 0 := rfl

theorem calcChecksum_set_high (data : List Nat) (j v : Nat) (hj : 7 ≤ j) :
    calcChecksum (data.set j v) = calcChecksum data := by
  rw [calcChecksum_expand (data.set j v), calcChecksum_expand data,
    getD_set_ne data 0 j v (by omega), getD_set_ne data 1 j v (by omega),
    getD_set_ne data 2 j v (by omega), getD_set_ne data 3 j v (by omega),
    getD_set_ne data 4 j v (by omega), getD_set_ne data 5 j v (by omega),
    getD_set_ne data 6 j v (by omega)]

theorem calcChecksum_flip (data : List Nat) (j k : Nat) (hj : j < 7) (hlen : 8 ≤ data.length) :
    calcChecksum (flipBit data j k) = calcChecksum data ^^^ 2 ^ k := by
  have hjl : j < data.length := by omega
  unfold flipBit
  rw [calcChecksum_expand (data.set j (data.getD j 0 ^^^ 2 ^ k)), calcChecksum_expand data]
  interval_cases j <;>
    simp only [getD_set_self _ _ _ hjl, getD_set_ne _ _ _ _ (by omega : (0:Nat) ≠ 99)] <;>
    simp [getD_set_ne, Nat.xor_assoc, Nat.xor_comm, xor_left_comm_nat]

theorem ddcmd_hi (b : Nat) (hb : b < 256) : (0xDD * 256 + b) &&& 0xFF00 = 0xDD00 := by
  have h : ∀ x : Fin 256, (0xDD * 256 + (x : Nat)) &&& 0xFF00 = 0xDD00 := by decide
  exact h ⟨b, hb⟩

theorem ddcmd_lo (b : Nat) (hb : b < 256) : (0xDD * 256 + b) &&& 0xFF = b := by
  have h : ∀ x : Fin 256, (0xDD * 256 + (x : Nat)) &&& 0xFF = (x : Nat) := by decide
  exact h ⟨b, hb⟩

/-! ## Decoder characterization -/

theorem parse_eq_ite (data : List Nat) :
    parse_kanavi_packet data = if acceptCond data then some (mkFrame data) else none := by
  by_cases hA : acceptCond data
  · obtain ⟨a1, a2, a3, a4, a5, a6⟩ := hA
    rw [if_pos ⟨a1, a2, a3, a4, a5, a6⟩]
    unfold parse_kanavi_packet
    rw [if_neg (by omega), if_neg (not_not_intro a2), if_neg (not_not_intro a3),
      if_neg (not_not_intro a4), if_neg (by omega), if_neg (not_not_intro a6)]
  · rw [if_neg hA]
    unfold parse_kanavi_packet
    by_cases h1 : data.length < 8
    · rw [if_pos h1]
    rw [if_neg h1]
    by_cases h2 : data.getD 0 0 ≠ 0xFA
    · rw [if_pos h2]
    rw [if_neg h2]
    by_cases h3 : cmdOf data &&& 0xFF00 ≠ 0xDD00
    · rw [if_pos h3]
    rw [if_neg h3]
    by_cases h4 : (cmdOf data &&& 0xFF) &&& 0xF0 ≠ 0xC0
    · rw [if_pos h4]
    rw [if_neg h4]
    by_cases h5 : data.length < 7 + dlenOf data + 1
    · rw [if_pos h5]
    rw [if_neg h5]
    by_cases h6 : calcChecksum data ≠ data.getD (7 + dlenOf data) 0
    · rw [if_pos h6]
    exact absurd ⟨by omega, not_not.mp h2, not_not.mp h3, not_not.mp h4, by omega,
      not_not.mp h6⟩ hA

theorem parse_some_iff (data : List Nat) (fr : ParsedPacket) :
    parse_kanavi_packet data = some fr ↔ acceptCond data ∧ fr = mkFrame data := by
  rw [parse_eq_ite]
  by_cases hA : acceptCond data <;> simp [hA, eq_comm]

theorem parse_isSome_iff (data : List Nat) :
    (parse_kanavi_packet data).isSome ↔ acceptCond data := by
  rw [parse_eq_ite]
  by_cases hA : acceptCond data <;> simp [hA]

/-! ## Point loop lemmas -/

theorem pointDistance_pos_iff (pd : List Nat) (i : Nat) :
    0 < pointDistance pd i ↔ 0 < pd.getD (i * 2) 0 + pd.getD (i * 2 + 1) 0 := by
  have hcast : pointDistance pd i
      = ((pd.getD (i * 2) 0 * 100 + pd.getD (i * 2 + 1) 0 : ℕ) : ℚ) / 100 := by
    unfold pointDistance; push_cast; ring
  rw [hcast, lt_div_iff₀ (by norm_num : (0:ℚ) < 100), zero_mul, Nat.cast_pos]
  omega

theorem parsePointsAux_cons (pd : List Nat) (ep : Nat) (hfov : ℚ) (ch fuel i : Nat)
    (hlen : i * 2 + 1 < pd.length)
    (hpos : 0 < pd.getD (i * 2) 0 + pd.getD (i * 2 + 1) 0) :
    parsePointsAux pd ep hfov ch (fuel + 1) i =
      mkPoint pd ep hfov ch i :: parsePointsAux pd ep hfov ch fuel (i + 1) := by
  rw [parsePointsAux, if_neg (by omega), if_pos ((pointDistance_pos_iff pd i).mpr hpos)]
  rfl

theorem parsePointsAux_skip (pd : List Nat) (ep : Nat) (hfov : ℚ) (ch fuel i : Nat)
    (hlen : i * 2 + 1 < pd.length)
    (hzero : pd.getD (i * 2) 0 + pd.getD (i * 2 + 1) 0 = 0) :
    parsePointsAux pd ep hfov ch (fuel + 1) i = parsePointsAux pd ep hfov ch fuel (i + 1) := by
  rw [parsePointsAux, if_neg (by omega),
    if_neg (fun hc => by have := (pointDistance_pos_iff pd i).mp hc; omega)]
  rfl

theorem mem_parsePointsAux (pd : List Nat) (ep : Nat) (hfov : ℚ) (ch : Nat) :
    ∀ fuel i p, p ∈ parsePointsAux pd ep hfov ch fuel i →
      ∃ j, i ≤ j ∧ j < i + fuel ∧ p = mkPoint pd ep hfov ch j ∧
        0 < pointDistance pd j ∧ j * 2 + 1 < pd.length := by
  intro fuel
  induction fuel with
  | zero => intro i p hp; simp [parsePointsAux] at hp
  | succ fuel ih =>
    intro i p hp
    rw [parsePointsAux] at hp
    split_ifs at hp with hbrk hdist
    · simp at hp
    · rcases List.mem_append.mp hp with h | h
      · have hpe : p = mkPoint pd ep hfov ch i := by simpa using h
        exact ⟨i, le_refl i, by omega, hpe, hdist, by omega⟩
      · obtain ⟨j, hj1, hj2, hj3, hj4, hj5⟩ := ih (i + 1) p h
        exact ⟨j, by omega, by omega, hj3, hj4, hj5⟩
    · have h : p ∈ parsePointsAux pd ep hfov ch fuel (i + 1) := by simpa using hp
      obtain ⟨j, hj1, hj2, hj3, hj4, hj5⟩ := ih (i + 1) p h
      exact ⟨j, by omega, by omega, hj3, hj4, hj5⟩

theorem parsePointsAux_pairwise (pd : List Nat) (ep : Nat) (hfov : ℚ) (ch : Nat) :
    ∀ fuel i, (parsePointsAux pd ep hfov ch fuel i).Pairwise
      (fun p q => p.point_index < q.point_index) := by
  intro fuel
  induction fuel with
  | zero => intro i; simp [parsePointsAux]
  | succ fuel ih =>
    intro i
    rw [parsePointsAux]
    split_ifs with hbrk hdist
    · simp
    · refine List.pairwise_append.mpr ⟨by simp, ih (i + 1), ?_⟩
      intro a ha b hb
      have hae : a = mkPoint pd ep hfov ch i := by simpa using ha
      obtain ⟨j, hj1, _, hj3, _, _⟩ := mem_parsePointsAux pd ep hfov ch fuel (i + 1) b hb
      rw [hae, hj3]
      show i < j
      omega
    · simpa using ih (i + 1)

theorem mem_mkFrame_points (data : List Nat) (p : PointSample)
    (hp : p ∈ (mkFrame data).points) :
    ∃ j, p = mkPoint (payloadOf data) (expectedPointsOf (data.getD 1 0))
        (lidar_models (data.getD 1 0)).hfov ((cmdOf data &&& 0xFF) &&& 0x0F) j ∧
      j < expectedPointsOf (data.getD 1 0) ∧
      0 < pointDistance (payloadOf data) j ∧
      expectedPointsOf (data.getD 1 0) * 2 ≤ (payloadOf data).length := by
  have hp2 : p ∈ parsePoints (payloadOf data) (expectedPointsOf (data.getD 1 0))
      (lidar_models (data.getD 1 0)).hfov ((cmdOf data &&& 0xFF) &&& 0x0F) := hp
  unfold parsePoints at hp2
  split_ifs at hp2 with hlen
  · obtain ⟨j, _, hj2, hj3, hj4, _⟩ :=
      mem_parsePointsAux _ _ _ _ _ _ p hp2
    exact ⟨j, hj3, by omega, hj4, hlen⟩
  · simp at hp2

/-- C2: for every input byte sequence the decoder is total, returning either
a rejection or a frame; and a frame is returned only when every validation
check passed, with all points carrying positive distances, the channel of
the frame, and strictly increasing indices. -/
theorem C2_decoder_total_and_validated (data : List Nat) :
    parse_kanavi_packet data = none ∨
      ∃ fr, parse_kanavi_packet data = some fr ∧ acceptCond data ∧
        (∀ p ∈ fr.points, 0 < p.distance ∧ p.channel = fr.channel) ∧
        fr.points.Pairwise (fun p q => p.point_index < q.point_index) ∧
        fr.num_points = fr.points.length := by
  rw [parse_eq_ite]
  by_cases hA : acceptCond data
  · right
    refine ⟨mkFrame data, by rw [if_pos hA], hA, ?_, ?_, rfl⟩
    · intro p hp
      obtain ⟨j, hj1, _, hj3, _⟩ := mem_mkFrame_points data p hp
      rw [hj1]
      exact ⟨hj3, rfl⟩
    · show (parsePoints (payloadOf data) (expectedPointsOf (data.getD 1 0))
        (lidar_models (data.getD 1 0)).hfov ((cmdOf data &&& 0xFF) &&& 0x0F)).Pairwise _
      unfold parsePoints
      split_ifs with hlen
      · exact parsePointsAux_pairwise _ _ _ _ _ _
      · simp
  · left
    rw [if_neg hA]

/-- C1 (amended): for every byte list of valid shape, decoding succeeds
exactly when the byte after the payload equals the XOR of bytes 0 through
6; and on an accepted packet, flipping any single bit of bytes 0 through 4
or of the checksum byte turns the outcome into a rejection.  Bit flips
inside the data-length bytes 5 and 6 are excluded: they move the checksum
position and can leave the packet accepted. -/
theorem C1_checksum_gate_amended (data : List Nat)
    (h256 : ∀ b ∈ data, b < 256) (hshape : validShape data) :
    ((parse_kanavi_packet data).isSome ↔
      data.getD (7 + dlenOf data) 0 = calcChecksum data)
    ∧ (∀ j k : Nat, k < 8 → (j ≤ 4 ∨ j = 7 + dlenOf data) →
        (parse_kanavi_packet data).isSome →
        parse_kanavi_packet (flipBit data j k) = none) := by
  obtain ⟨s1, s2, s3, s4, s5⟩ := hshape
  have hb4 : data.getD 4 0 < 256 := h256 _ (getD_mem data 4 (by omega))
  have hcmd3 : cmdOf data &&& 0xFF00 = 0xDD00 := by
    unfold cmdOf; rw [s3]; exact ddcmd_hi _ hb4
  have hcmd4 : cmdOf data &&& 0xFF = data.getD 4 0 := by
    unfold cmdOf; rw [s3]; exact ddcmd_lo _ hb4
  constructor
  · rw [parse_isSome_iff]
    constructor
    · rintro ⟨-, -, -, -, -, a6⟩
      exact a6.symm
    · intro hck
      exact ⟨by omega, s2, hcmd3, by rw [hcmd4]; exact s4, s5, hck.symm⟩
  · intro j k hk hj hsome
    obtain ⟨a1, a2, a3, a4, a5, a6⟩ := (parse_isSome_iff data).mp hsome
    rw [parse_eq_ite, if_neg]
    intro hacc2
    obtain ⟨b1, b2, b3, b4, b5, b6⟩ := hacc2
    cases hj with
    | inl hj4 =>
      have hdlen : dlenOf (flipBit data j k) = dlenOf data := by
        unfold dlenOf flipBit
        rw [getD_set_ne data 5 j _ (by omega), getD_set_ne data 6 j _ (by omega)]
      have hstored : (flipBit data j k).getD (7 + dlenOf (flipBit data j k)) 0
          = data.getD (7 + dlenOf data) 0 := by
        rw [hdlen]
        exact getD_set_ne data _ j _ (by omega)
      have hcalc : calcChecksum (flipBit data j k) = calcChecksum data ^^^ 2 ^ k :=
        calcChecksum_flip data j k (by omega) (by omega)
      rw [hcalc, hstored, ← a6] at b6
      exact xor_pow_ne _ k b6
    | inr hj7 =>
      subst hj7
      have hdlen : dlenOf (flipBit data (7 + dlenOf data) k) = dlenOf data := by
        unfold dlenOf flipBit
        rw [getD_set_ne data 5 _ _ (by omega), getD_set_ne data 6 _ _ (by omega)]
      have hcalcEq : calcChecksum (flipBit data (7 + dlenOf data) k) = calcChecksum data :=
        calcChecksum_set_high data _ _ (by omega)
      have hstored : (flipBit data (7 + dlenOf data) k).getD
          (7 + dlenOf (flipBit data (7 + dlenOf data) k)) 0
          = data.getD (7 + dlenOf data) 0 ^^^ 2 ^ k := by
        rw [hdlen]
        exact getD_set_self data _ _ (by omega)
      rw [hcalcEq, hstored, a6] at b6
      exact xor_pow_ne _ k b6.symm

/-- C1 counterexample to the bit-flip clause as stated: `exC1b` is accepted,
byte 6 lies inside bytes 0 through 6, yet flipping bit 1 of byte 6 yields a
packet that is still accepted. -/
theorem C1_counterexample :
    (parse_kanavi_packet exC1b).isSome = true ∧
    (parse_kanavi_packet (flipBit exC1b 6 1)).isSome = true := by
  constructor <;> decide

/-- C1 witness: the amended theorem applied to the accepted packet `exC1`,
flipping bit 0 of byte 1 (the product line), rejects the flipped packet. -/
theorem C1_witness : parse_kanavi_packet (flipBit exC1 1 0) = none :=
  (C1_checksum_gate_amended exC1 (by decide) (by decide)).2 1 0 (by omega)
    (Or.inl (by omega)) (by decide)

theorem mkFrame_points (data : List Nat) :
    (mkFrame data).points = parsePoints (payloadOf data) (expectedPointsOf (data.getD 1 0))
      (lidar_models (data.getD 1 0)).hfov ((cmdOf data &&& 0xFF) &&& 0x0F) := rfl

theorem mkFrame_num_points (data : List Nat) :
    (mkFrame data).num_points = (mkFrame data).points.length := rfl

/-- C6: the expected point count is a fixed value per known model with 360
as the default for every other product line, and a payload shorter than two
bytes per expected point yields a successful frame with zero points. -/
theorem C6_expected_points_and_short_payload :
    (expectedPointsOf 0x03 = 360 ∧ expectedPointsOf 0x06 = 400 ∧
      expectedPointsOf 0x07 = 360 ∧ ∀ pl, pl ≠ 0x06 → expectedPointsOf pl = 360)
    ∧ ∀ data fr, parse_kanavi_packet data = some fr →
        (payloadOf data).length < expectedPointsOf (data.getD 1 0) * 2 →
        fr.points = [] ∧ fr.num_points = 0 := by
  refine ⟨⟨rfl, rfl, rfl, fun pl hpl => by simp [expectedPointsOf, hpl]⟩, ?_⟩
  intro data fr hparse hshort
  obtain ⟨hA, hfr⟩ := (parse_some_iff data fr).mp hparse
  subst hfr
  have hpts : (mkFrame data).points = [] := by
    rw [mkFrame_points]
    unfold parsePoints
    rw [if_neg (by omega)]
  refine ⟨hpts, ?_⟩
  rw [mkFrame_num_points, hpts]
  rfl

/-- C6 witness: the small packet `exC6` is accepted, its two-byte payload is
below the expected 720 bytes, and the frame carries zero points; product
line 5 is unknown and maps to the default 360 expected points. -/
theorem C6_witness :
    parse_kanavi_packet exC6 = some (mkFrame exC6) ∧ (mkFrame exC6).points = [] ∧
      expectedPointsOf 5 = 360 := by
  have hparse : parse_kanavi_packet exC6 = some (mkFrame exC6) :=
    (parse_some_iff exC6 (mkFrame exC6)).mpr ⟨by decide, rfl⟩
  exact ⟨hparse,
    (C6_expected_points_and_short_payload.2 exC6 (mkFrame exC6) hparse (by decide)).1,
    C6_expected_points_and_short_payload.1.2.2.2 5 (by decide)⟩

/-- C4 (amended): the detection byte of an emitted point with index i is the
byte at offset `expected_points * 2 + i` of the payload when a trailing
block exists and i lies inside it (the modulo in the source wraps nothing
there), and 0 in every other case, including indices beyond a short block. -/
theorem C4_detection_amended (data : List Nat) (fr : ParsedPacket)
    (hparse : parse_kanavi_packet data = some fr) :
    ∀ p ∈ fr.points,
      p.detection =
        if expectedPointsOf (data.getD 1 0) * 2 < (payloadOf data).length ∧
            p.point_index < (payloadOf data).length - expectedPointsOf (data.getD 1 0) * 2
        then (payloadOf data).getD (expectedPointsOf (data.getD 1 0) * 2 + p.point_index) 0
        else 0 := by
  intro p hp
  obtain ⟨hA, hfr⟩ := (parse_some_iff data fr).mp hparse
  subst hfr
  obtain ⟨j, hj1, hj2, _, _⟩ := mem_mkFrame_points data p hp
  rw [hj1]
  show detectionAt (payloadOf data) (expectedPointsOf (data.getD 1 0)) j = _
  unfold detectionAt
  by_cases h1 : expectedPointsOf (data.getD 1 0) * 2 < (payloadOf data).length
  · rw [if_pos h1]
    by_cases h2 : j < (payloadOf data).length - expectedPointsOf (data.getD 1 0) * 2
    · rw [if_pos h2, if_pos ⟨h1, (by exact h2 : (mkPoint _ _ _ _ j).point_index < _)⟩,
        Nat.mod_eq_of_lt h2]
      rfl
    · rw [if_neg h2, if_neg (fun hc => h2 hc.2)]
  · rw [if_neg h1, if_neg (fun hc => h1 hc.1)]

theorem exC4_points_cons :
    (mkFrame exC4).points = mkPoint exC4pd 360 360 0 1 ::
      parsePointsAux exC4pd 360 360 0 358 2 := by
  have hpts : (mkFrame exC4).points = parsePointsAux exC4pd 360 360 0 360 0 := by
    rw [mkFrame_points,
      show payloadOf exC4 = exC4pd from by decide,
      show expectedPointsOf (exC4.getD 1 0) = 360 from by decide,
      show (cmdOf exC4 &&& 0xFF) &&& 0x0F = 0 from by decide,
      show (lidar_models (exC4.getD 1 0)).hfov = 360 from rfl]
    unfold parsePoints
    rw [if_pos (by decide)]
  rw [hpts,
    show parsePointsAux exC4pd 360 360 0 360 0 = parsePointsAux exC4pd 360 360 0 359 1 from
      parsePointsAux_skip exC4pd 360 360 0 359 0 (by decide) (by decide)]
  exact parsePointsAux_cons exC4pd 360 360 0 358 1 (by decide) (by decide)

/-- C4 counterexample: `exC4` is accepted and its only emitted point has
index 1, which lies beyond the one-byte trailing detection block, so the
source assigns detection 0; the wrap-by-modulo reading of the claim would
assign byte `exC4pd[720]` = 9 instead. -/
theorem C4_counterexample :
    parse_kanavi_packet exC4 = some (mkFrame exC4) ∧
    (mkFrame exC4).points.head? = some (mkPoint exC4pd 360 360 0 1) ∧
    (mkPoint exC4pd 360 360 0 1).point_index = 1 ∧
    (mkPoint exC4pd 360 360 0 1).detection = 0 ∧
    claimDetection exC4pd 360 1 = 9 := by
  refine ⟨(parse_some_iff exC4 (mkFrame exC4)).mpr ⟨by decide, rfl⟩, ?_, rfl, by decide, by decide⟩
  rw [exC4_points_cons]
  rfl

theorem exC4w_points_cons :
    (mkFrame exC4w).points = mkPoint exC4wpd 360 360 0 0 ::
      parsePointsAux exC4wpd 360 360 0 359 1 := by
  have hpts : (mkFrame exC4w).points = parsePointsAux exC4wpd 360 360 0 360 0 := by
    rw [mkFrame_points,
      show payloadOf exC4w = exC4wpd from by decide,
      show expectedPointsOf (exC4w.getD 1 0) = 360 from by decide,
      show (cmdOf exC4w &&& 0xFF) &&& 0x0F = 0 from by decide,
      show (lidar_models (exC4w.getD 1 0)).hfov = 360 from rfl]
    unfold parsePoints
    rw [if_pos (by decide)]
  rw [hpts]
  exact parsePointsAux_cons exC4wpd 360 360 0 359 0 (by decide) (by decide)

/-- C4 witness: the amended theorem applied to the accepted packet `exC4w`,
whose point 0 lies inside the trailing block, yields detection byte 9. -/
theorem C4_witness : (mkPoint exC4wpd 360 360 0 0).detection = 9 := by
  have hparse : parse_kanavi_packet exC4w = some (mkFrame exC4w) :=
    (parse_some_iff exC4w (mkFrame exC4w)).mpr ⟨by decide, rfl⟩
  have hp : mkPoint exC4wpd 360 360 0 0 ∈ (mkFrame exC4w).points := by
    rw [exC4w_points_cons]
    exact List.mem_cons_self _ _
  have h := C4_detection_amended exC4w (mkFrame exC4w) hparse _ hp
  rw [h]
  decide

/-- C8: every emitted point of an accepted packet carries distance equal to
its integer byte plus its fractional byte over 100, azimuth following the
linear formula over the expected points, equal to minus half the field of
view at index 0 and plus half the field of view at the last index. -/
theorem C8_distance_azimuth (data : List Nat) (fr : ParsedPacket)
    (hparse : parse_kanavi_packet data = some fr) :
    ∀ p ∈ fr.points,
      p.distance = ((payloadOf data).getD (p.point_index * 2) 0 : ℚ) +
        ((payloadOf data).getD (p.point_index * 2 + 1) 0 : ℚ) / 100
      ∧ p.azimuth = -(lidar_models (data.getD 1 0)).hfov / 2 +
          (p.point_index : ℚ) * (lidar_models (data.getD 1 0)).hfov /
            ((expectedPointsOf (data.getD 1 0) - 1 : Nat) : ℚ)
      ∧ (p.point_index = 0 → p.azimuth = -(lidar_models (data.getD 1 0)).hfov / 2)
      ∧ (p.point_index = expectedPointsOf (data.getD 1 0) - 1 →
          p.azimuth = (lidar_models (data.getD 1 0)).hfov / 2) := by
  intro p hp
  obtain ⟨hA, hfr⟩ := (parse_some_iff data fr).mp hparse
  subst hfr
  obtain ⟨j, hj1, hj2, _, _⟩ := mem_mkFrame_points data p hp
  have hep : 1 < expectedPointsOf (data.getD 1 0) := by
    unfold expectedPointsOf
    split_ifs <;> omega
  have hc : ((expectedPointsOf (data.getD 1 0) - 1 : Nat) : ℚ) ≠ 0 := by
    have h1 : 0 < expectedPointsOf (data.getD 1 0) - 1 := by omega
    exact_mod_cast h1.ne'
  subst hj1
  refine ⟨rfl, ?_, ?_, ?_⟩
  · show pointAzimuth _ _ j = _
    rw [pointAzimuth, if_pos hep]
    rfl
  · intro hj0
    have hj0n : j = 0 := hj0
    subst hj0n
    show pointAzimuth _ _ 0 = _
    rw [pointAzimuth, if_pos hep]
    simp
  · intro hjlast
    have hjn : j = expectedPointsOf (data.getD 1 0) - 1 := hjlast
    subst hjn
    show pointAzimuth _ _ _ = _
    rw [pointAzimuth, if_pos hep, mul_comm, mul_div_assoc, div_self hc, mul_one]
    ring

theorem exC8w_points_cons :
    (mkFrame exC8w).points = mkPoint exC8wpd 360 360 0 0 ::
      parsePointsAux exC8wpd 360 360 0 359 1 := by
  have hpts : (mkFrame exC8w).points = parsePointsAux exC8wpd 360 360 0 360 0 := by
    rw [mkFrame_points,
      show payloadOf exC8w = exC8wpd from by decide,
      show expectedPointsOf (exC8w.getD 1 0) = 360 from by decide,
      show (cmdOf exC8w &&& 0xFF) &&& 0x0F = 0 from by decide,
      show (lidar_models (exC8w.getD 1 0)).hfov = 360 from rfl]
    unfold parsePoints
    rw [if_pos (by decide)]
  rw [hpts]
  exact parsePointsAux_cons exC8wpd 360 360 0 359 0 (by decide) (by decide)

/-- C8 witness: the theorem applied to the accepted packet `exC8w` gives the
expected distance 1.50 m and azimuth minus 180 degrees for point 0. -/
theorem C8_witness :
    (mkPoint exC8wpd 360 360 0 0).distance = 3 / 2 ∧
    (mkPoint exC8wpd 360 360 0 0).azimuth = -180 := by
  have hparse : parse_kanavi_packet exC8w = some (mkFrame exC8w) :=
    (parse_some_iff exC8w (mkFrame exC8w)).mpr ⟨by decide, rfl⟩
  have hp : mkPoint exC8wpd 360 360 0 0 ∈ (mkFrame exC8w).points := by
    rw [exC8w_points_cons]
    exact List.mem_cons_self _ _
  obtain ⟨hd, -, h0, -⟩ := C8_distance_azimuth exC8w (mkFrame exC8w) hparse _ hp
  constructor
  · have h1 : (payloadOf exC8w).getD ((mkPoint exC8wpd 360 360 0 0).point_index * 2) 0 = 1 := by
      decide
    have h2 : (payloadOf exC8w).getD
        ((mkPoint exC8wpd 360 360 0 0).point_index * 2 + 1) 0 = 50 := by decide
    rw [hd, h1, h2]
    norm_num
  · rw [h0 rfl, show (lidar_models (exC8w.getD 1 0)).hfov = 360 from rfl]
    norm_num

/-! ## Broadcast fan-out lemmas -/

theorem broadcast_fold (ok : Nat → Bool) (m : Nat) :
    ∀ (clients : List Nat) (a1 : List (Nat × Nat)) (a2 : List Nat),
      clients.foldl
        (fun acc c => if ok c then (acc.1 ++ [(c, m)], acc.2) else (acc.1, acc.2 ++ [c]))
        (a1, a2)
      = (a1 ++ (clients.filter ok).map (fun c => (c, m)),
         a2 ++ clients.filter (fun c => !(ok c))) := by
  intro clients
  induction clients with
  | nil => intro a1 a2; simp
  | cons c t ih =>
    intro a1 a2
    by_cases hc : ok c <;> simp [hc, ih, List.filter_cons]

theorem discardAll_eq_filter :
    ∀ (disc reg : List Nat), discardAll reg disc = reg.filter (fun x => decide (x ∉ disc)) := by
  intro disc
  induction disc with
  | nil => intro reg; simp [discardAll]
  | cons c t ih =>
    intro reg
    show discardAll (reg.filter (fun x => x ≠ c)) t = _
    rw [ih, List.filter_filter]
    apply List.filter_congr
    intro x _
    by_cases h1 : x = c <;> by_cases h2 : x ∈ t <;> simp [h1, h2]

/-- C3: one broadcast sends the same message to exactly the sessions whose
send succeeds, collects exactly the failing sessions as disconnected, and
the registry afterwards holds exactly the surviving sessions, so one
failure leaves the other sessions served and registered. -/
theorem C3_broadcast_fanout (clients : List Nat) (ok : Nat → Bool) (m : Nat) :
    (broadcast_to_clients clients ok m).1 = (clients.filter ok).map (fun c => (c, m))
    ∧ (broadcast_to_clients clients ok m).2 = clients.filter (fun c => !(ok c))
    ∧ registry_after_broadcast clients ok m = clients.filter ok := by
  have hb := broadcast_fold ok m clients [] []
  refine ⟨by rw [show broadcast_to_clients clients ok m =
      clients.foldl _ ([], []) from rfl, hb]; simp,
    by rw [show broadcast_to_clients clients ok m =
      clients.foldl _ ([], []) from rfl, hb]; simp, ?_⟩
  unfold registry_after_broadcast
  rw [discardAll_eq_filter]
  have h2 : (broadcast_to_clients clients ok m).2 = clients.filter (fun c => !(ok c)) := by
    rw [show broadcast_to_clients clients ok m =
      clients.foldl _ ([], []) from rfl, hb]
    simp
  rw [h2]
  apply List.filter_congr
  intro x hx
  by_cases h : ok x <;> simp [List.mem_filter, h, hx]

/-! ## Queue lemmas -/

theorem pushMany_zero_maxsize :
    ∀ (xs : List Nat) (q : DataQueue Nat), q.maxsize = 0 →
      pushMany q xs = ⟨0, q.items ++ xs⟩ := by
  intro xs
  induction xs with
  | nil =>
    intro q hq
    cases q
    simp_all [pushMany]
  | cons x t ih =>
    intro q hq
    have hfull : q.isFull = false := by
      simp [DataQueue.isFull, hq]
    have hstep : (q.put_nowait x).1 = { q with items := q.items ++ [x] } := by
      simp [DataQueue.put_nowait, hfull]
    show pushMany (q.put_nowait x).1 t = _
    rw [hstep, ih { q with items := q.items ++ [x] } hq]
    simp

/-- C5 counterexample: the ingestion queue is created with maxsize 0, that
is, without any capacity bound; after 500 pushes it is still not full and
holds all 500 items, so no push onto it is ever dropped and no
dropped-frame counter exists to increment. -/
theorem C5_counterexample :
    serverInitQueue.maxsize = 0 ∧
    (pushMany serverInitQueue (List.range 500)).isFull = false ∧
    (pushMany serverInitQueue (List.range 500)).items.length = 500 := by
  rw [pushMany_zero_maxsize (List.range 500) serverInitQueue rfl]
  refine ⟨rfl, by simp [DataQueue.isFull], by simp [serverInitQueue]⟩

/-- C5 (amended): the queue is created unbounded (maxsize 0); push never
blocks and always enqueues the new item at the tail, so nothing is ever
dropped; the overflow handler would drop the new item without raising if
the queue were full, which never happens. -/
theorem C5_queue_unbounded_amended :
    (∀ xs : List Nat, (pushMany serverInitQueue xs).items = xs ∧
      (pushMany serverInitQueue xs).maxsize = 0 ∧
      (pushMany serverInitQueue xs).isFull = false)
    ∧ (∀ (q : DataQueue Nat) (x : Nat), q.isFull = true → q.put_nowait x = (q, false))
    ∧ (∀ (q : DataQueue Nat) (x : Nat), q.isFull = false →
        q.put_nowait x = ({ q with items := q.items ++ [x] }, true)) := by
  refine ⟨?_, ?_, ?_⟩
  · intro xs
    rw [pushMany_zero_maxsize xs serverInitQueue rfl]
    refine ⟨by simp [serverInitQueue], rfl, by simp [DataQueue.isFull]⟩
  · intro q x h
    simp [DataQueue.put_nowait, h]
  · intro q x h
    simp [DataQueue.put_nowait, h]

/-- C5 witness: three pushes onto the fresh queue keep all three items, and
a put on a hypothetical full queue returns it unchanged with the drop flag. -/
theorem C5_witness :
    (pushMany serverInitQueue [1, 2, 3]).items = [1, 2, 3] ∧
    DataQueue.put_nowait (⟨2, [5, 6]⟩ : DataQueue Nat) 7 = (⟨2, [5, 6]⟩, false) :=
  ⟨(C5_queue_unbounded_amended.1 [1, 2, 3]).1,
   C5_queue_unbounded_amended.2.1 ⟨2, [5, 6]⟩ 7 (by decide)⟩

/-- C7: the rate gate forwards and stamps a channel exactly when at least
50 ms passed since the last forwarded frame on that channel; a second call
within 50 ms is refused without touching any timestamp, and a call at
least 50 ms after the forwarded one is allowed again. -/
theorem C7_rate_limit (last : Nat → ℚ) (ch : Nat) (t0 t1 t2 : ℚ) :
    ((rate_limit_allow last ch t0).1 = true ↔ 1 / 20 ≤ t0 - last ch)
    ∧ ((rate_limit_allow last ch t0).1 = false → (rate_limit_allow last ch t0).2 = last)
    ∧ ((rate_limit_allow last ch t0).1 = true → (rate_limit_allow last ch t0).2 ch = t0
        ∧ ∀ c, c ≠ ch → (rate_limit_allow last ch t0).2 c = last c)
    ∧ (1 / 20 ≤ t0 - last ch → t1 - t0 < 1 / 20 → 1 / 20 ≤ t2 - t0 →
        (rate_limit_allow last ch t0).1 = true
        ∧ (rate_limit_allow (rate_limit_allow last ch t0).2 ch t1).1 = false
        ∧ (rate_limit_allow (rate_limit_allow (rate_limit_allow last ch t0).2 ch t1).2
            ch t2).1 = true) := by
  refine ⟨?_, ?_, ?_, ?_⟩
  · unfold rate_limit_allow
    split_ifs with h
    · exact iff_of_false (by simp) (by linarith)
    · exact iff_of_true rfl (by linarith)
  · intro h
    unfold rate_limit_allow at h ⊢
    split_ifs at h ⊢ with hc
    rfl
  · intro h
    unfold rate_limit_allow at h ⊢
    split_ifs at h ⊢ with hc
    refine ⟨?_, ?_⟩
    · show (if ch = ch then t0 else last ch) = t0
      rw [if_pos rfl]
    · intro c hne
      show (if c = ch then t0 else last c) = last c
      rw [if_neg hne]
  · intro ha hb hc
    have e0 : rate_limit_allow last ch t0 =
        (true, fun c => if c = ch then t0 else last c) := by
      unfold rate_limit_allow
      rw [if_neg (by linarith)]
    rw [e0]
    have e1 : rate_limit_allow (fun c => if c = ch then t0 else last c) ch t1 =
        (false, fun c => if c = ch then t0 else last c) := by
      unfold rate_limit_allow
      rw [if_pos (by simpa using hb)]
    rw [e1]
    refine ⟨rfl, rfl, ?_⟩
    unfold rate_limit_allow
    rw [if_neg (by simpa using (by linarith : ¬ t2 - t0 < 1 / 20))]

/-- C7 witness: from fresh timestamps on channel 0, a call at t = 1 is
allowed, a call 10 ms later is refused, and a call at t = 2 is allowed. -/
theorem C7_witness :
    (rate_limit_allow (fun _ => 0) 0 1).1 = true
    ∧ (rate_limit_allow (rate_limit_allow (fun _ => 0) 0 1).2 0 (101 / 100)).1 = false
    ∧ (rate_limit_allow (rate_limit_allow (rate_limit_allow (fun _ => 0) 0 1).2 0
        (101 / 100)).2 0 2).1 = true :=
  (C7_rate_limit (fun _ => 0) 0 1 (101 / 100) 2).2.2.2
    (by norm_num) (by norm_num) (by norm_num)

/-! ## Scan control lemmas -/

theorem applyMsg_inv (s : ServerState) (msg : ControlMsg)
    (h : s.activeReceivers = if s.receiving then 1 else 0) :
    (applyMsg s msg).activeReceivers = if (applyMsg s msg).receiving then 1 else 0 := by
  cases msg <;>
    simp only [applyMsg, startScanMsg, stopScanMsg] <;>
    split_ifs <;> simp_all

theorem applyMsgs_inv :
    ∀ (msgs : List ControlMsg) (s : ServerState),
      s.activeReceivers = (if s.receiving then 1 else 0) →
      (applyMsgs s msgs).activeReceivers =
        if (applyMsgs s msgs).receiving then 1 else 0 := by
  intro msgs
  induction msgs with
  | nil => intro s h; exact h
  | cons msg t ih =>
    intro s h
    exact ih (applyMsg s msg) (applyMsg_inv s msg h)

/-- C9: a second start_scan in a row starts nothing new and leaves exactly
one active receiver; stop_scan on the idle server is a no-op leaving the
state idle; and along every sequence of control messages from the fresh
server at most one receiver is ever active. -/
theorem C9_scan_control :
    (startScanMsg (startScanMsg initServer)).activeReceivers = 1
    ∧ startScanMsg (startScanMsg initServer) = startScanMsg initServer
    ∧ stopScanMsg initServer = initServer
    ∧ initServer.receiving = false
    ∧ ∀ msgs : List ControlMsg, (applyMsgs initServer msgs).activeReceivers ≤ 1 := by
  refine ⟨rfl, rfl, rfl, rfl, ?_⟩
  intro msgs
  have h := applyMsgs_inv msgs initServer rfl
  rw [h]
  split_ifs <;> omega

theorem drainAux_spec {α : Type} :
    ∀ (fuel : Nat) (q : DataQueue α), q.items.length ≤ fuel →
      drainAux fuel q = (q.items, { q with items := [] }) := by
  intro fuel
  induction fuel with
  | zero =>
    intro q h
    have hnil : q.items = [] := List.length_eq_zero.mp (by omega)
    cases q
    simp_all [drainAux]
  | succ fuel ih =>
    intro q h
    obtain ⟨ms, its⟩ := q
    cases its with
    | nil => simp [drainAux, DataQueue.get_nowait]
    | cons x rest =>
      have hlen : (⟨ms, rest⟩ : DataQueue α).items.length ≤ fuel := by
        simpa using Nat.lt_succ_iff.mp
          (by simpa using Nat.lt_of_lt_of_le (Nat.lt_succ_self rest.length) h)
      simp only [drainAux, DataQueue.get_nowait]
      rw [ih ⟨ms, rest⟩ hlen]

theorem drainAll_spec {α : Type} (q : DataQueue α) :
    drainAll q = (q.items, { q with items := [] }) :=
  drainAux_spec q.items.length q (le_refl _)

/-- C10: stop_scan leaves the per-channel timestamps, the queued frames and
the session registry untouched, also through a following start_scan; the
first drain after the restart returns exactly the frames queued before the
stop; and a frame within 50 ms of the last forwarded one is still refused
after the restart. -/
theorem C10_stop_scan_effect (s : ServerState) (ch : Nat) (t : ℚ) :
    (stopScanMsg s).last_send_time = s.last_send_time
    ∧ (stopScanMsg s).data_queue = s.data_queue
    ∧ (stopScanMsg s).connected_clients = s.connected_clients
    ∧ (startScanMsg (stopScanMsg s)).last_send_time = s.last_send_time
    ∧ (startScanMsg (stopScanMsg s)).data_queue = s.data_queue
    ∧ (startScanMsg (stopScanMsg s)).connected_clients = s.connected_clients
    ∧ (drainAll (startScanMsg (stopScanMsg s)).data_queue).1 = s.data_queue.items
    ∧ (t - s.last_send_time ch < 1 / 20 →
        (rate_limit_allow (startScanMsg (stopScanMsg s)).last_send_time ch t).1 = false) := by
  have h1 : (stopScanMsg s).last_send_time = s.last_send_time := by
    unfold stopScanMsg; split_ifs <;> rfl
  have h2 : (stopScanMsg s).data_queue = s.data_queue := by
    unfold stopScanMsg; split_ifs <;> rfl
  have h3 : (stopScanMsg s).connected_clients = s.connected_clients := by
    unfold stopScanMsg; split_ifs <;> rfl
  have h4 : (startScanMsg (stopScanMsg s)).last_send_time = s.last_send_time := by
    unfold startScanMsg; split_ifs <;> simp [h1]
  have h5 : (startScanMsg (stopScanMsg s)).data_queue = s.data_queue := by
    unfold startScanMsg; split_ifs <;> simp [h2]
  have h6 : (startScanMsg (stopScanMsg s)).connected_clients = s.connected_clients := by
    unfold startScanMsg; split_ifs <;> simp [h3]
  refine ⟨h1, h2, h3, h4, h5, h6, ?_, ?_⟩
  · rw [drainAll_spec, h5]
  · intro hlt
    rw [h4]
    unfold rate_limit_allow
    rw [if_pos hlt]

/-- C10 witness: on a concrete running server with frames 7 and 8 queued,
stop_scan keeps the queue, the drain after restart returns both frames,
and a frame 10 ms after the last forwarded one stays suppressed. -/
theorem C10_witness :
    (stopScanMsg sC10).data_queue = sC10.data_queue
    ∧ (drainAll (startScanMsg (stopScanMsg sC10)).data_queue).1 = [7, 8]
    ∧ (rate_limit_allow (startScanMsg (stopScanMsg sC10)).last_send_time 0 (1 / 100)).1
        = false := by
  obtain ⟨-, h2, -, -, -, -, h7, h8⟩ := C10_stop_scan_effect sC10 0 (1 / 100)
  exact ⟨h2, h7.trans rfl, h8 (by norm_num [sC10])⟩
